import Mathlib

/-!
Verification of the tic-tac-toe game core in src/src/App.tsx.

The game logic is embedded shallowly: the React component state
(status, moves, cells, moveId, gameOver) becomes an explicit Session
record, the setState calls of an event handler become the construction
of the next Session value, and a JavaScript throw becomes an Except
error. A rejected move therefore leaves the session untouched by
construction, exactly as in the source, where every throw happens
before the first setState call of the handler.

Cell values are modelled as Option Player: the source type also allows
a number arm, but no code path ever stores a number in a cell
(createCells stores null and makeTurn stores the X or O mark), so the
values that actually occur are null, X and O.

The non-null assertion inside checkWinCondition (cells.find(...)!)
is modelled by letting the lookup return an Option and propagating a
lookup failure as an Except error of the win detector and, further up,
of makeTurn.
-/

namespace TicTacToe

inductive Player
  | X
  | O
deriving DecidableEq

/-- The value a cell holds: empty, or the mark of one player. -/
abbrev CellValue := Option Player

inductive GameStatus
  | Xturn
  | Oturn
  | Xwon
  | Owon
  | Stalemate
deriving DecidableEq

/-- The display text of a status, as the TS string literals. -/
def statusText : GameStatus → String
  | GameStatus.Xturn => "X turn"
  | GameStatus.Oturn => "O turn"
  | GameStatus.Xwon => "X won"
  | GameStatus.Owon => "O won"
  | GameStatus.Stalemate => "Stalemate"

structure Cell where
  id : Nat
  value : CellValue
deriving DecidableEq

/-- The two recoverable error kinds of the source (_GAME_ERRORS keys). -/
inductive ErrKind
  | CELL_ALREADY_HAS_VALUE
  | GAME_IS_OVER_CANNOT_MAKE_THE_MOVE
deriving DecidableEq

/-- How a turn can fail: a thrown GameError, or the non-null assertion
of the win detector failing (a crash, not a GameError). -/
inductive TurnFailure
  | gameErr (kind : ErrKind)
  | assertFail
deriving DecidableEq

/-- createCells: nine cells with ids 1..9, all empty. -/
def createCells : List Cell :=
  (List.range 9).map (fun i => { id := i + 1, value := none })

/-- The 8 winning identifier triples, in source order:
rows, then columns, then diagonals. -/
def winConditions : List (Nat × Nat × Nat) :=
  [(1, 2, 3), (4, 5, 6), (7, 8, 9),
   (1, 4, 7), (2, 5, 8), (3, 6, 9),
   (1, 5, 9), (3, 5, 7)]

/-- The cellValue helper of checkWinCondition: find the cell with the
given id and read its value. Returns none when no cell has the id
(the source would fail its non-null assertion there). -/
def cellValue? (cells : List Cell) (id : Nat) : Option CellValue :=
  (cells.find? (fun c => c.id == id)).map Cell.value

/-- The loop of checkWinCondition over a list of lines. The source
reads the first two values of a line unconditionally and the third one
only when the first two are equal; a missing cell is the assertion
failure, propagated as an error. A line whose three values are equal
yields a win only when that value is the O or X mark. -/
def checkWinAux (cells : List Cell) : List (Nat × Nat × Nat) → Except Unit (Option GameStatus)
  | [] => Except.ok none
  | (a, b, c) :: rest =>
    match cellValue? cells a, cellValue? cells b with
    | some v0, some v1 =>
      if v0 = v1 then
        match cellValue? cells c with
        | some v2 =>
          if v1 = v2 then
            match v0 with
            | some Player.O => Except.ok (some GameStatus.Owon)
            | some Player.X => Except.ok (some GameStatus.Xwon)
            | none => checkWinAux cells rest
          else
            checkWinAux cells rest
        | none => Except.error ()
      else
        checkWinAux cells rest
    | _, _ => Except.error ()

/-- checkWinCondition: run the line scan over the 8 winning lines. -/
def checkWinCondition (cells : List Cell) : Except Unit (Option GameStatus) :=
  checkWinAux cells winConditions

/-- One iteration of the win-scan as a total function: the win the
given line yields on this board, if any. Used to state what the first
matching line is. -/
def lineWin (cells : List Cell) : Nat × Nat × Nat → Option GameStatus
  | (a, b, c) =>
    match cellValue? cells a, cellValue? cells b, cellValue? cells c with
    | some (some p0), some (some p1), some (some p2) =>
      if p0 = p1 ∧ p1 = p2 then
        some (match p0 with | Player.X => GameStatus.Xwon | Player.O => GameStatus.Owon)
      else none
    | _, _, _ => none

/-- The win status of a player. -/
def winStatus : Player → GameStatus
  | Player.X => GameStatus.Xwon
  | Player.O => GameStatus.Owon

/-- The other player. -/
def otherPlayer : Player → Player
  | Player.X => Player.O
  | Player.O => Player.X

structure MoveHistoryEntry where
  id : Nat
  cells : List Cell
  status : GameStatus
  label : String
deriving DecidableEq

/-- createMove: build a history entry, defaulting the label from the id
when none is passed. -/
def createMove (id : Nat) (cells : List Cell) (status : GameStatus)
    (label : Option String) : MoveHistoryEntry :=
  { id := id
    cells := cells
    status := status
    label :=
      match label with
      | some l => l
      | none => if id = 0 then "Go to game start" else "Go to move #" ++ toString id }

/-- The React component state of Game: status, moves, cells, moveId,
gameOver. -/
structure Session where
  status : GameStatus
  moves : List MoveHistoryEntry
  cells : List Cell
  moveId : Nat
  gameOver : Bool
deriving DecidableEq

/-- The initial state of the five useState hooks. -/
def initialSession : Session :=
  { status := GameStatus.Xturn
    moves := [createMove 0 createCells GameStatus.Xturn none]
    cells := createCells
    moveId := 0
    gameOver := false }

/-- goToMove: restore moveId, status and cells from a history entry.
The moves list and the gameOver flag are not touched. -/
def goToMove (s : Session) (e : MoveHistoryEntry) : Session :=
  { s with moveId := e.id, status := e.status, cells := e.cells }

/-- startNewGame: reset every state slot to its initial value. -/
def startNewGame (_s : Session) : Session :=
  initialSession

/-- The cells.map callback of makeTurn, run over the whole list: a cell
whose id matches the target throws CELL_ALREADY_HAS_VALUE when it
already holds a value and is otherwise replaced by a copy holding the
mark; other cells are kept. -/
def updateCells : List Cell → Nat → Player → Except ErrKind (List Cell)
  | [], _, _ => Except.ok []
  | c :: rest, targetId, mark =>
    if c.id = targetId then
      if c.value.isSome then
        Except.error ErrKind.CELL_ALREADY_HAS_VALUE
      else
        match updateCells rest targetId mark with
        | Except.error e => Except.error e
        | Except.ok out => Except.ok ({ c with value := some mark } :: out)
    else
      match updateCells rest targetId mark with
      | Except.error e => Except.error e
      | Except.ok out => Except.ok (c :: out)

/-- The successful tail of makeTurn, given the updated cells and the
win-detector result on them: compute the final values the setState
calls leave behind (status, moveId, gameOver, the truncated-and-
extended moves list). -/
def finishTurn (s : Session) (updatedCells : List Cell)
    (gameOver0 : Option GameStatus) : Session :=
  let updatedStatus0 : GameStatus :=
    match gameOver0 with
    | some w => w
    | none => if s.status = GameStatus.Xturn then GameStatus.Oturn else GameStatus.Xturn
  let updatedMoveId := s.moveId + 1
  let gameOver : Option GameStatus :=
    if updatedMoveId = 9 ∧ gameOver0 = none then some GameStatus.Stalemate else gameOver0
  let updatedStatus : GameStatus :=
    if updatedMoveId = 9 ∧ gameOver0 = none then GameStatus.Stalemate else updatedStatus0
  let label : Option String :=
    if gameOver.isSome then some ("Go to game over: " ++ statusText updatedStatus) else none
  { status := updatedStatus
    moves := s.moves.take updatedMoveId ++
      [createMove updatedMoveId updatedCells updatedStatus label]
    cells := updatedCells
    moveId := updatedMoveId
    gameOver := gameOver.isSome }

/-- makeTurn: reject when a player has already won, update the cells
(rejecting an occupied target), run the win detector, and commit the
new state. -/
def makeTurn (s : Session) (cellId : Nat) : Except TurnFailure Session :=
  if s.status = GameStatus.Xwon ∨ s.status = GameStatus.Owon then
    Except.error (TurnFailure.gameErr ErrKind.GAME_IS_OVER_CANNOT_MAKE_THE_MOVE)
  else
    match updateCells s.cells cellId
        (if s.status = GameStatus.Xturn then Player.X else Player.O) with
    | Except.error k => Except.error (TurnFailure.gameErr k)
    | Except.ok updatedCells =>
      match checkWinCondition updatedCells with
      | Except.error _ => Except.error TurnFailure.assertFail
      | Except.ok gameOver0 => Except.ok (finishTurn s updatedCells gameOver0)

/-- Run a list of cell clicks from a session, stopping at the first
failure. -/
def playMovesFrom (s : Session) : List Nat → Except TurnFailure Session
  | [] => Except.ok s
  | id :: rest =>
    match makeTurn s id with
    | Except.error e => Except.error e
    | Except.ok s2 => playMovesFrom s2 rest

/-- Run a list of cell clicks from the initial session. -/
def playMoves (ids : List Nat) : Except TurnFailure Session :=
  playMovesFrom initialSession ids

/-- Extract the session of a successful result, with a default. -/
def okOr (r : Except TurnFailure Session) (d : Session) : Session :=
  match r with
  | Except.ok s => s
  | Except.error _ => d

/-- The pure one-cell update the accepted path of makeTurn performs. -/
def markCell (targetId : Nat) (mark : Player) (c : Cell) : Cell :=
  if c.id = targetId then { c with value := some mark } else c

/-- Number of non-empty cells of a board. -/
def filledCount (cells : List Cell) : Nat :=
  cells.countP (fun c => c.value.isSome)

/-- Number of empty cells of a board. -/
def emptyCount (cells : List Cell) : Nat :=
  cells.countP (fun c => c.value.isNone)

/-- The identifier sequence 1..9 of a board as created by createCells. -/
def idList : List Nat :=
  (List.range 9).map (fun i => i + 1)

/-- A well-formed board: the identifiers, in order, are exactly 1..9.
Every board the program ever builds satisfies this. -/
def WfBoard (cells : List Cell) : Prop :=
  cells.map Cell.id = idList

/-- Facts maintained for every entry stored in the history log. -/
structure EntryInv (e : MoveHistoryEntry) : Prop where
  filled : filledCount e.cells = e.id
  wf : WfBoard e.cells
  stale : e.status = GameStatus.Stalemate → e.id = 9

/-- Facts maintained by every transition of the session state. -/
structure Inv (s : Session) : Prop where
  idxLt : s.moveId < s.moves.length
  entries : ∀ e ∈ s.moves, EntryInv e
  ids : ∀ (i : Nat) (e : MoveHistoryEntry), s.moves[i]? = some e → e.id = i
  snap : ∃ e, s.moves[s.moveId]? = some e ∧ e.cells = s.cells ∧ e.status = s.status
  head : s.moves[0]? = some (createMove 0 createCells GameStatus.Xturn none)
  filled : filledCount s.cells = s.moveId
  wf : WfBoard s.cells
  stale : s.status = GameStatus.Stalemate → s.moveId = 9

/-- The sessions the component can actually be in: the initial state,
closed under the three user intents. A cell click always targets a
cell of the current board, and a history click always targets an entry
of the current log, because the presentation renders exactly those. -/
inductive Reachable : Session → Prop
  | init : Reachable initialSession
  | move {s s2 : Session} {cell : Cell} :
      Reachable s → cell ∈ s.cells → makeTurn s cell.id = Except.ok s2 → Reachable s2
  | select {s : Session} {e : MoveHistoryEntry} :
      Reachable s → e ∈ s.moves → Reachable (goToMove s e)
  | newGame {s : Session} : Reachable s → Reachable (startNewGame s)

/-- A session in which X has already won, used to instantiate theorems
about terminal sessions. -/
def wonSession : Session :=
  { status := GameStatus.Xwon
    moves := []
    cells := []
    moveId := 0
    gameOver := true }

/-- A board where X holds the whole first row and every other cell is
empty. -/
def rowBoardX : List Cell :=
  [⟨1, some Player.X⟩, ⟨2, some Player.X⟩, ⟨3, some Player.X⟩,
   ⟨4, none⟩, ⟨5, none⟩, ⟨6, none⟩, ⟨7, none⟩, ⟨8, none⟩, ⟨9, none⟩]

/-- A non-terminal session whose cell 1 is occupied, used to
instantiate theorems about occupied-cell rejection. -/
def occupiedSession : Session :=
  { status := GameStatus.Xturn
    moves := []
    cells := rowBoardX
    moveId := 0
    gameOver := false }

/-- The nine clicks of a game that ends in a stalemate:
X takes 1, 3, 6, 7, 8 and O takes 2, 4, 5, 9, and no line is ever
completed. -/
def drawClicks : List Nat :=
  [1, 2, 3, 4, 6, 5, 7, 9, 8]

/-- The session after playing the stalemate game. -/
def drawSession : Session :=
  okOr (playMoves drawClicks) initialSession

/-! ### Lemmas about updateCells -/

theorem updateCells_ok {cells : List Cell} {t : Nat} {m : Player} {out : List Cell}
    (h : updateCells cells t m = Except.ok out) :
    out = cells.map (markCell t m) ∧ ∀ c ∈ cells, c.id = t → c.value = none := by
  induction cells generalizing out with
  | nil =>
    cases h
    simp
  | cons hd tl ih =>
    simp only [updateCells] at h
    split at h
    case isTrue hid =>
      split at h
      case isTrue hv => cases h
      case isFalse hv =>
        split at h
        case h_1 e heq => cases h
        case h_2 out2 heq =>
          cases h
          obtain ⟨ho, hall⟩ := ih heq
          constructor
          · simp only [List.map_cons, ← ho, markCell, if_pos hid]
          · intro c hc hct
            rcases List.mem_cons.mp hc with rfl | hmem
            · exact Option.not_isSome_iff_eq_none.mp hv
            · exact hall c hmem hct
    case isFalse hid =>
      split at h
      case h_1 e heq => cases h
      case h_2 out2 heq =>
        cases h
        obtain ⟨ho, hall⟩ := ih heq
        constructor
        · simp only [List.map_cons, ← ho, markCell, if_neg hid]
        · intro c hc hct
          rcases List.mem_cons.mp hc with rfl | hmem
          · exact absurd hct hid
          · exact hall c hmem hct

theorem updateCells_error_of_occupied {cells : List Cell} {t : Nat} {m : Player} {c : Cell}
    (hc : c ∈ cells) (hid : c.id = t) (hv : c.value.isSome) :
    updateCells cells t m = Except.error ErrKind.CELL_ALREADY_HAS_VALUE := by
  induction cells with
  | nil => cases hc
  | cons hd tl ih =>
    rcases List.mem_cons.mp hc with rfl | hmem
    · simp [updateCells, hid, hv]
    · by_cases hhd : hd.id = t
      · by_cases hhv : hd.value.isSome
        · simp [updateCells, hhd, hhv]
        · simp [updateCells, hhd, hhv, ih hmem]
      · simp [updateCells, hhd, ih hmem]

/-! ### Counting lemmas -/

theorem map_markCell_of_no_target {cells : List Cell} {t : Nat} {m : Player}
    (h : ∀ c ∈ cells, c.id ≠ t) : cells.map (markCell t m) = cells := by
  induction cells with
  | nil => rfl
  | cons hd tl ih =>
    simp only [List.map_cons]
    rw [ih (fun c hc => h c (List.mem_cons_of_mem _ hc))]
    have hhd : markCell t m hd = hd := by
      simp [markCell, h hd (List.mem_cons_self _ _)]
    rw [hhd]

theorem filledCount_cons (c : Cell) (cs : List Cell) :
    filledCount (c :: cs) = filledCount cs + (if c.value.isSome then 1 else 0) := by
  simp [filledCount, List.countP_cons]

theorem emptyCount_cons (c : Cell) (cs : List Cell) :
    emptyCount (c :: cs) = emptyCount cs + (if c.value.isNone then 1 else 0) := by
  simp [emptyCount, List.countP_cons]

theorem filledCount_map_markCell {cells : List Cell} {t : Nat} {m : Player}
    (hnodup : (cells.map Cell.id).Nodup)
    (hempty : ∀ c ∈ cells, c.id = t → c.value = none)
    (hex : ∃ c ∈ cells, c.id = t) :
    filledCount (cells.map (markCell t m)) = filledCount cells + 1 := by
  induction cells with
  | nil =>
    obtain ⟨c, hc, _⟩ := hex
    cases hc
  | cons hd tl ih =>
    by_cases hhd : hd.id = t
    · have hhdv : hd.value = none := hempty hd (List.mem_cons_self _ _) hhd
      have htl : ∀ c ∈ tl, c.id ≠ t := by
        intro c hcmem hct
        have hmm : hd.id ∈ tl.map Cell.id := by
          rw [hhd, ← hct]
          exact List.mem_map_of_mem _ hcmem
        exact (List.nodup_cons.mp (by simpa using hnodup)).1 hmm
      simp only [List.map_cons]
      rw [map_markCell_of_no_target htl, filledCount_cons, filledCount_cons]
      have h1 : (markCell t m hd).value.isSome = true := by
        simp [markCell, hhd]
      have h2 : hd.value.isSome = false := by simp [hhdv]
      rw [h1, h2]
      simp
    · have hex2 : ∃ c ∈ tl, c.id = t := by
        obtain ⟨c, hc, hct⟩ := hex
        rcases List.mem_cons.mp hc with rfl | hmem
        · exact absurd hct hhd
        · exact ⟨c, hmem, hct⟩
      have hnd2 : (tl.map Cell.id).Nodup :=
        (List.nodup_cons.mp (by simpa using hnodup)).2
      have hem2 : ∀ c ∈ tl, c.id = t → c.value = none :=
        fun c hc => hempty c (List.mem_cons_of_mem _ hc)
      simp only [List.map_cons]
      have hhd2 : markCell t m hd = hd := by simp [markCell, hhd]
      rw [hhd2, filledCount_cons, filledCount_cons, ih hnd2 hem2 hex2]
      omega

theorem filledCount_add_emptyCount (cells : List Cell) :
    filledCount cells + emptyCount cells = cells.length := by
  induction cells with
  | nil => rfl
  | cons hd tl ih =>
    rw [filledCount_cons, emptyCount_cons, List.length_cons]
    cases hv : hd.value <;> simp [hv] <;> omega

theorem map_id_map_markCell (cells : List Cell) (t : Nat) (m : Player) :
    (cells.map (markCell t m)).map Cell.id = cells.map Cell.id := by
  rw [List.map_map]
  apply List.map_congr_left
  intro c _
  simp only [Function.comp_apply, markCell]
  split <;> rfl

/-! ### Board well-formedness lemmas -/

theorem wfBoard_exists_id {cells : List Cell} (hwf : WfBoard cells) {i : Nat}
    (h1 : 1 ≤ i) (h9 : i ≤ 9) : ∃ c ∈ cells, c.id = i := by
  have hmm : i ∈ cells.map Cell.id := by
    rw [hwf]
    simp only [idList, List.mem_map, List.mem_range]
    exact ⟨i - 1, by omega, by omega⟩
  rcases List.mem_map.mp hmm with ⟨c, hc, hci⟩
  exact ⟨c, hc, hci⟩

theorem cellValue?_isSome_of_mem {cells : List Cell} {c : Cell} {i : Nat}
    (hmem : c ∈ cells) (hid : c.id = i) : (cellValue? cells i).isSome := by
  simp only [cellValue?, Option.isSome_map']
  exact List.find?_isSome.mpr ⟨c, hmem, by simp [hid]⟩

theorem wfBoard_lookup {cells : List Cell} (hwf : WfBoard cells) {i : Nat}
    (h1 : 1 ≤ i) (h9 : i ≤ 9) : (cellValue? cells i).isSome := by
  obtain ⟨c, hc, hci⟩ := wfBoard_exists_id hwf h1 h9
  exact cellValue?_isSome_of_mem hc hci

theorem wfBoard_nodup {cells : List Cell} (hwf : WfBoard cells) :
    (cells.map Cell.id).Nodup := by
  rw [hwf]
  decide

theorem wfBoard_length {cells : List Cell} (hwf : WfBoard cells) :
    cells.length = 9 := by
  have := congrArg List.length hwf
  simpa using this

/-! ### Lemmas about the win detector -/

theorem wf_lines {cells : List Cell} (hwf : WfBoard cells) :
    ∀ l ∈ winConditions, (cellValue? cells l.1).isSome ∧
      (cellValue? cells l.2.1).isSome ∧ (cellValue? cells l.2.2).isSome := by
  intro l hl
  fin_cases hl <;>
    exact ⟨wfBoard_lookup hwf (by decide) (by decide),
      wfBoard_lookup hwf (by decide) (by decide),
      wfBoard_lookup hwf (by decide) (by decide)⟩

theorem checkWinAux_eq_findSome {cells : List Cell} {ls : List (Nat × Nat × Nat)}
    (h : ∀ l ∈ ls, (cellValue? cells l.1).isSome ∧ (cellValue? cells l.2.1).isSome ∧
      (cellValue? cells l.2.2).isSome) :
    checkWinAux cells ls = Except.ok (ls.findSome? (lineWin cells)) := by
  induction ls with
  | nil => rfl
  | cons hd tl ih =>
    obtain ⟨a, b, c⟩ := hd
    obtain ⟨ha, hb, hc⟩ := h (a, b, c) (List.mem_cons_self _ _)
    rcases Option.isSome_iff_exists.mp ha with ⟨v0, hv0⟩
    rcases Option.isSome_iff_exists.mp hb with ⟨v1, hv1⟩
    rcases Option.isSome_iff_exists.mp hc with ⟨v2, hv2⟩
    have ih2 := ih (fun l hl => h l (List.mem_cons_of_mem _ hl))
    rw [List.findSome?_cons]
    simp only [checkWinAux, lineWin, hv0, hv1, hv2]
    clear ha hb hc hv0 hv1 hv2 h
    rcases v0 with _ | p0 <;> rcases v1 with _ | p1 <;> rcases v2 with _ | p2
    all_goals try rcases p0 with _ | _
    all_goals try rcases p1 with _ | _
    all_goals try rcases p2 with _ | _
    all_goals simp_all

theorem lineWin_some {cells : List Cell} {l : Nat × Nat × Nat} {g : GameStatus}
    (h : lineWin cells l = some g) : g = GameStatus.Xwon ∨ g = GameStatus.Owon := by
  obtain ⟨a, b, c⟩ := l
  rcases hva : cellValue? cells a with _ | v0
  case none => simp [lineWin, hva] at h
  case some =>
    rcases hvb : cellValue? cells b with _ | v1
    case none => simp [lineWin, hva, hvb] at h
    case some =>
      rcases hvc : cellValue? cells c with _ | v2
      case none => simp [lineWin, hva, hvb, hvc] at h
      case some =>
        simp only [lineWin, hva, hvb, hvc] at h
        clear hva hvb hvc
        rcases v0 with _ | p0 <;> rcases v1 with _ | p1 <;> rcases v2 with _ | p2
        all_goals try rcases p0 with _ | _
        all_goals try rcases p1 with _ | _
        all_goals try rcases p2 with _ | _
        all_goals simp_all

theorem checkWin_some_shape {cells : List Cell} {g : GameStatus}
    (hwf : WfBoard cells) (h : checkWinCondition cells = Except.ok (some g)) :
    g = GameStatus.Xwon ∨ g = GameStatus.Owon := by
  rw [checkWinCondition, checkWinAux_eq_findSome (wf_lines hwf)] at h
  obtain ⟨l, hl, hlw⟩ := List.exists_of_findSome?_eq_some (Except.ok.inj h)
  exact lineWin_some hlw

theorem findSome?_of_all {α β : Type} {l : List α} {f : α → Option β} {v : β}
    (hall : ∀ x ∈ l, f x = none ∨ f x = some v) (hex : ∃ x ∈ l, f x = some v) :
    l.findSome? f = some v := by
  induction l with
  | nil =>
    obtain ⟨x, hx, _⟩ := hex
    cases hx
  | cons hd tl ih =>
    rw [List.findSome?_cons]
    rcases hall hd (List.mem_cons_self _ _) with hnone | hsome
    · simp only [hnone]
      apply ih (fun x hx => hall x (List.mem_cons_of_mem _ hx))
      obtain ⟨x, hx, hfx⟩ := hex
      rcases List.mem_cons.mp hx with rfl | hmem
      · rw [hnone] at hfx
        cases hfx
      · exact ⟨x, hmem, hfx⟩
    · simp only [hsome]

/-! ### Structural lemmas about makeTurn and finishTurn -/

theorem finishTurn_cells (s : Session) (uc : List Cell) (g : Option GameStatus) :
    (finishTurn s uc g).cells = uc := rfl

theorem finishTurn_moveId (s : Session) (uc : List Cell) (g : Option GameStatus) :
    (finishTurn s uc g).moveId = s.moveId + 1 := rfl

theorem finishTurn_status_some (s : Session) (uc : List Cell) (w : GameStatus) :
    (finishTurn s uc (some w)).status = w := by
  simp [finishTurn]

theorem finishTurn_status_none_nine (s : Session) (uc : List Cell)
    (h9 : s.moveId + 1 = 9) : (finishTurn s uc none).status = GameStatus.Stalemate := by
  simp [finishTurn, h9]

theorem finishTurn_status_none_other (s : Session) (uc : List Cell)
    (h9 : s.moveId + 1 ≠ 9) :
    (finishTurn s uc none).status =
      (if s.status = GameStatus.Xturn then GameStatus.Oturn else GameStatus.Xturn) := by
  simp [finishTurn, h9]

theorem finishTurn_gameOver_some (s : Session) (uc : List Cell) (w : GameStatus) :
    (finishTurn s uc (some w)).gameOver = true := by
  simp [finishTurn]

theorem finishTurn_gameOver_none (s : Session) (uc : List Cell) :
    (finishTurn s uc none).gameOver = (if s.moveId + 1 = 9 then true else false) := by
  by_cases h9 : s.moveId + 1 = 9 <;> simp [finishTurn, h9]

theorem finishTurn_moves_shape (s : Session) (uc : List Cell) (g : Option GameStatus) :
    ∃ e : MoveHistoryEntry,
      (finishTurn s uc g).moves = s.moves.take (s.moveId + 1) ++ [e] ∧
      e.id = s.moveId + 1 ∧ e.cells = uc ∧ e.status = (finishTurn s uc g).status :=
  ⟨_, rfl, rfl, rfl, rfl⟩

theorem makeTurn_ok_elim {s : Session} {cid : Nat} {s2 : Session}
    (h : makeTurn s cid = Except.ok s2) :
    ¬(s.status = GameStatus.Xwon ∨ s.status = GameStatus.Owon) ∧
    ∃ uc g,
      updateCells s.cells cid
        (if s.status = GameStatus.Xturn then Player.X else Player.O) = Except.ok uc ∧
      checkWinCondition uc = Except.ok g ∧
      s2 = finishTurn s uc g := by
  by_cases hw : s.status = GameStatus.Xwon ∨ s.status = GameStatus.Owon
  · simp [makeTurn, hw] at h
  · refine ⟨hw, ?_⟩
    simp only [makeTurn, if_neg hw] at h
    cases hu : updateCells s.cells cid
        (if s.status = GameStatus.Xturn then Player.X else Player.O) with
    | error k =>
      simp only [hu] at h
      cases h
    | ok uc =>
      simp only [hu] at h
      cases hg : checkWinCondition uc with
      | error e =>
        simp only [hg] at h
        cases h
      | ok g =>
        simp only [hg] at h
        cases h
        exact ⟨uc, g, rfl, hg, rfl⟩

theorem makeTurn_rejects_won {s : Session} {cid : Nat}
    (hw : s.status = GameStatus.Xwon ∨ s.status = GameStatus.Owon) :
    makeTurn s cid =
      Except.error (TurnFailure.gameErr ErrKind.GAME_IS_OVER_CANNOT_MAKE_THE_MOVE) := by
  simp [makeTurn, hw]

theorem makeTurn_rejects_occupied {s : Session} {c : Cell}
    (hw : ¬(s.status = GameStatus.Xwon ∨ s.status = GameStatus.Owon))
    (hc : c ∈ s.cells) (hv : c.value.isSome) :
    makeTurn s c.id =
      Except.error (TurnFailure.gameErr ErrKind.CELL_ALREADY_HAS_VALUE) := by
  simp only [makeTurn, if_neg hw]
  rw [updateCells_error_of_occupied hc rfl hv]

/-! ### The session invariant is established and preserved -/

theorem inv_initial : Inv initialSession := by
  refine ⟨?_, ?_, ?_, ?_, ?_, ?_, ?_, ?_⟩
  · decide
  · intro e he
    have he2 : e = createMove 0 createCells GameStatus.Xturn none := by
      simpa [initialSession] using he
    subst he2
    exact ⟨by decide, (by decide : createCells.map Cell.id = idList), by decide⟩
  · intro i e h
    cases i with
    | zero =>
      rw [show initialSession.moves = [createMove 0 createCells GameStatus.Xturn none]
        from rfl, List.getElem?_cons_zero] at h
      cases h
      rfl
    | succ n =>
      rw [show initialSession.moves = [createMove 0 createCells GameStatus.Xturn none]
        from rfl, List.getElem?_cons_succ, List.getElem?_nil] at h
      cases h
  · exact ⟨createMove 0 createCells GameStatus.Xturn none, rfl, rfl, rfl⟩
  · rfl
  · decide
  · exact (by decide : createCells.map Cell.id = idList)
  · decide

theorem inv_mem_idx {s : Session} (hinv : Inv s) {e : MoveHistoryEntry}
    (he : e ∈ s.moves) : s.moves[e.id]? = some e := by
  obtain ⟨i, hlt, hget⟩ := List.getElem_of_mem he
  have hq : s.moves[i]? = some e := by
    rw [List.getElem?_eq_getElem hlt, hget]
  rw [hinv.ids i e hq]
  exact hq

theorem inv_mem_lt {s : Session} (hinv : Inv s) {e : MoveHistoryEntry}
    (he : e ∈ s.moves) : e.id < s.moves.length := by
  obtain ⟨i, hlt, hget⟩ := List.getElem_of_mem he
  have hq : s.moves[i]? = some e := by
    rw [List.getElem?_eq_getElem hlt, hget]
  rw [hinv.ids i e hq]
  exact hlt

theorem inv_goToMove {s : Session} (hinv : Inv s) {e : MoveHistoryEntry}
    (he : e ∈ s.moves) : Inv (goToMove s e) := by
  have hidx := inv_mem_idx hinv he
  have hE := hinv.entries e he
  exact ⟨inv_mem_lt hinv he, hinv.entries, hinv.ids, ⟨e, hidx, rfl, rfl⟩,
    hinv.head, hE.filled, hE.wf, hE.stale⟩

theorem inv_makeTurn {s : Session} {cell : Cell} {s2 : Session} (hinv : Inv s)
    (hc : cell ∈ s.cells) (h : makeTurn s cell.id = Except.ok s2) : Inv s2 := by
  obtain ⟨hw, uc, g, hu, hg, rfl⟩ := makeTurn_ok_elim h
  obtain ⟨huc, hempty⟩ := updateCells_ok hu
  have hwf2 : WfBoard uc := by
    rw [WfBoard, huc, map_id_map_markCell]
    exact hinv.wf
  have hfilled2 : filledCount uc = s.moveId + 1 := by
    rw [huc, filledCount_map_markCell (wfBoard_nodup hinv.wf) hempty ⟨cell, hc, rfl⟩,
      hinv.filled]
  have hstale2 : (finishTurn s uc g).status = GameStatus.Stalemate → s.moveId + 1 = 9 := by
    intro hst
    cases g with
    | none =>
      by_cases h9 : s.moveId + 1 = 9
      · exact h9
      · rw [finishTurn_status_none_other s uc h9] at hst
        split at hst <;> cases hst
    | some w =>
      rw [finishTurn_status_some] at hst
      subst hst
      rcases checkWin_some_shape hwf2 hg with h1 | h1 <;> cases h1
  have hlen : s.moveId + 1 ≤ s.moves.length := hinv.idxLt
  have htake : (s.moves.take (s.moveId + 1)).length = s.moveId + 1 := by
    rw [List.length_take]
    omega
  obtain ⟨e, hmoves, heid, hecells, hestatus⟩ := finishTurn_moves_shape s uc g
  refine ⟨?_, ?_, ?_, ?_, ?_, ?_, ?_, ?_⟩
  · rw [finishTurn_moveId, hmoves, List.length_append, htake]
    simp
  · intro e2 he2
    rw [hmoves] at he2
    rcases List.mem_append.mp he2 with hmem | hmem
    · exact hinv.entries e2 (List.mem_of_mem_take hmem)
    · have he3 : e2 = e := by simpa using hmem
      subst he3
      refine ⟨?_, ?_, ?_⟩
      · rw [hecells, heid, hfilled2]
      · rw [hecells]
        exact hwf2
      · intro hst
        rw [heid]
        exact hstale2 (hestatus ▸ hst)
  · intro i e2 hgete
    rw [hmoves] at hgete
    by_cases hi : i < s.moveId + 1
    · have hi2 : i < (s.moves.take (s.moveId + 1)).length := by
        rw [htake]
        exact hi
      rw [List.getElem?_append_left hi2, List.getElem?_take_of_lt hi] at hgete
      exact hinv.ids i e2 hgete
    · have hge2 : (s.moves.take (s.moveId + 1)).length ≤ i := by
        rw [htake]
        omega
      rw [List.getElem?_append_right hge2, htake] at hgete
      rcases Nat.lt_or_ge (s.moveId + 1) i with hgt | hle
      · have hsub : i - (s.moveId + 1) = (i - (s.moveId + 1) - 1) + 1 := by omega
        rw [hsub, List.getElem?_cons_succ, List.getElem?_nil] at hgete
        cases hgete
      · have hieq : i = s.moveId + 1 := by omega
        subst hieq
        rw [Nat.sub_self, List.getElem?_cons_zero] at hgete
        cases hgete
        rw [heid]
  · refine ⟨e, ?_, ?_, hestatus⟩
    · rw [finishTurn_moveId, hmoves, List.getElem?_append_right (le_of_eq htake),
        htake, Nat.sub_self, List.getElem?_cons_zero]
    · rw [hecells, finishTurn_cells]
  · rw [hmoves]
    have h0 : (0 : Nat) < (s.moves.take (s.moveId + 1)).length := by
      rw [htake]
      omega
    rw [List.getElem?_append_left h0, List.getElem?_take_of_lt (by omega)]
    exact hinv.head
  · rw [finishTurn_cells, finishTurn_moveId]
    exact hfilled2
  · rw [finishTurn_cells]
    exact hwf2
  · intro hst
    rw [finishTurn_moveId]
    exact hstale2 hst

theorem reachable_inv {s : Session} (h : Reachable s) : Inv s := by
  induction h with
  | init => exact inv_initial
  | move hr hc hm ih => exact inv_makeTurn ih hc hm
  | select hr he ih => exact inv_goToMove ih he
  | newGame hr ih => exact inv_initial

/-! ### The win scan can only report a win for X or for O -/

theorem checkWinAux_some_shape {cells : List Cell} {ls : List (Nat × Nat × Nat)}
    {g : GameStatus} (h : checkWinAux cells ls = Except.ok (some g)) :
    g = GameStatus.Xwon ∨ g = GameStatus.Owon := by
  induction ls with
  | nil => cases h
  | cons hd tl ih =>
    obtain ⟨a, b, c⟩ := hd
    rcases hva : cellValue? cells a with _ | v0
    case none => simp [checkWinAux, hva] at h
    case some =>
      rcases hvb : cellValue? cells b with _ | v1
      case none => simp [checkWinAux, hva, hvb] at h
      case some =>
        simp only [checkWinAux, hva, hvb] at h
        by_cases h01 : v0 = v1
        · rw [if_pos h01] at h
          rcases hvc : cellValue? cells c with _ | v2
          · simp only [hvc] at h
            cases h
          · simp only [hvc] at h
            by_cases h12 : v1 = v2
            · rw [if_pos h12] at h
              rcases v0 with _ | p0
              · exact ih h
              · cases p0
                · cases h
                  exact Or.inl rfl
                · cases h
                  exact Or.inr rfl
            · rw [if_neg h12] at h
              exact ih h
        · rw [if_neg h01] at h
          exact ih h

theorem checkWinCondition_some_shape {cells : List Cell} {g : GameStatus}
    (h : checkWinCondition cells = Except.ok (some g)) :
    g = GameStatus.Xwon ∨ g = GameStatus.Owon :=
  checkWinAux_some_shape h

/-! ### Sequences of clicks from the initial session -/

theorem playMovesFrom_ok {ids : List Nat} {s s2 : Session}
    (hr : Reachable s) (hids : ∀ i ∈ ids, 1 ≤ i ∧ i ≤ 9)
    (h : playMovesFrom s ids = Except.ok s2) :
    Reachable s2 ∧ s2.moveId = s.moveId + ids.length := by
  induction ids generalizing s with
  | nil =>
    cases h
    exact ⟨hr, by simp⟩
  | cons hd tl ih =>
    simp only [playMovesFrom] at h
    cases hm : makeTurn s hd with
    | error e =>
      simp only [hm] at h
      cases h
    | ok s3 =>
      simp only [hm] at h
      obtain ⟨hb1, hb9⟩ := hids hd (List.mem_cons_self _ _)
      obtain ⟨c, hcmem, hcid⟩ := wfBoard_exists_id (reachable_inv hr).wf hb1 hb9
      have hr3 : Reachable s3 := Reachable.move hr hcmem (by rw [hcid]; exact hm)
      have hmi : s3.moveId = s.moveId + 1 := by
        obtain ⟨_, uc, g, _, _, rfl⟩ := makeTurn_ok_elim hm
        exact finishTurn_moveId s uc g
      obtain ⟨hr2, hlen⟩ := ih hr3 (fun i hi => hids i (List.mem_cons_of_mem _ hi)) h
      refine ⟨hr2, ?_⟩
      rw [hlen, hmi, List.length_cons]
      omega

/-! ### The claims -/

/-- C1, counterexample: the claim says every terminal session, the draw
state included, rejects any move with error kind GAME_OVER. In the
code the game-over guard tests only the two won statuses, so in the
session reached by playing a full drawn game (a reachable session whose
status is the draw state) a click on cell 1 is rejected with
CELL_ALREADY_HAS_VALUE, not with the game-over kind. -/
theorem C1_draw_rejects_with_cell_occupied :
    playMoves drawClicks = Except.ok drawSession ∧
    drawSession.status = GameStatus.Stalemate ∧
    makeTurn drawSession 1 =
      Except.error (TurnFailure.gameErr ErrKind.CELL_ALREADY_HAS_VALUE) ∧
    makeTurn drawSession 1 ≠
      Except.error (TurnFailure.gameErr ErrKind.GAME_IS_OVER_CANNOT_MAKE_THE_MOVE) := by
  refine ⟨rfl, rfl, rfl, ?_⟩
  intro hcontra
  rw [show makeTurn drawSession 1 =
    Except.error (TurnFailure.gameErr ErrKind.CELL_ALREADY_HAS_VALUE) from rfl] at hcontra
  cases hcontra

/-- C1, amended: a session in which a player has won rejects every move
with error kind GAME_OVER, leaving the session unchanged (a rejection
returns an error, and the component commits no state on that path).
A session in the draw state is not caught by the game-over guard: a
move on an occupied cell (on a reachable draw board, every cell) is
rejected with CELL_OCCUPIED instead, also leaving the session
unchanged. -/
theorem C1_terminal_rejection (s : Session) (cid : Nat) (c : Cell) :
    (s.status = GameStatus.Xwon ∨ s.status = GameStatus.Owon →
      makeTurn s cid =
        Except.error (TurnFailure.gameErr ErrKind.GAME_IS_OVER_CANNOT_MAKE_THE_MOVE)) ∧
    (s.status = GameStatus.Stalemate → c ∈ s.cells → c.value.isSome →
      makeTurn s c.id =
        Except.error (TurnFailure.gameErr ErrKind.CELL_ALREADY_HAS_VALUE)) := by
  constructor
  · intro hw
    exact makeTurn_rejects_won hw
  · intro hst hc hv
    apply makeTurn_rejects_occupied _ hc hv
    intro hcontra
    rcases hcontra with h1 | h1 <;> rw [hst] at h1 <;> cases h1

/-- C1, witness: the won session rejects a click on cell 5 with the
game-over kind, and the reachable draw session rejects a click on its
occupied cell 1 with the occupied-cell kind. -/
theorem C1_terminal_rejection_witness :
    makeTurn wonSession 5 =
      Except.error (TurnFailure.gameErr ErrKind.GAME_IS_OVER_CANNOT_MAKE_THE_MOVE) ∧
    makeTurn drawSession 1 =
      Except.error (TurnFailure.gameErr ErrKind.CELL_ALREADY_HAS_VALUE) :=
  ⟨(C1_terminal_rejection wonSession 5 ⟨1, none⟩).1 (Or.inl rfl),
   (C1_terminal_rejection drawSession 1 ⟨1, some Player.X⟩).2 rfl (by decide) rfl⟩

/-- C2: in every session the component can reach (the initial one, and
closure under accepted moves, history selection and new game), the
current board and the current status are exactly the snapshot stored
in the history entry at the current move index. -/
theorem C2_current_equals_snapshot (s : Session) (hr : Reachable s) :
    ∃ e : MoveHistoryEntry,
      s.moves[s.moveId]? = some e ∧ e.cells = s.cells ∧ e.status = s.status :=
  (reachable_inv hr).snap

/-- C2, witness: the invariant instantiated at the initial session. -/
theorem C2_current_equals_snapshot_witness :
    ∃ e : MoveHistoryEntry,
      initialSession.moves[initialSession.moveId]? = some e ∧
      e.cells = initialSession.cells ∧ e.status = initialSession.status :=
  C2_current_equals_snapshot initialSession Reachable.init

/-- C3: an accepted move from move index k keeps exactly the history
entries at indices 0..k, appends one entry whose sequence number is
k+1 and whose board and status are the new current ones, and sets the
move index to k+1; a further accepted move then produces index k+2. -/
theorem C3_truncate_then_append (s s2 : Session) (cid : Nat)
    (h : makeTurn s cid = Except.ok s2) :
    s2.moveId = s.moveId + 1 ∧
    (∃ e : MoveHistoryEntry,
      s2.moves = s.moves.take (s.moveId + 1) ++ [e] ∧
      e.id = s.moveId + 1 ∧ e.cells = s2.cells ∧ e.status = s2.status) ∧
    (∀ (cid2 : Nat) (s3 : Session), makeTurn s2 cid2 = Except.ok s3 →
      s3.moveId = s.moveId + 2) := by
  obtain ⟨hw, uc, g, hu, hg, rfl⟩ := makeTurn_ok_elim h
  refine ⟨finishTurn_moveId s uc g, ?_, ?_⟩
  · obtain ⟨e, hm, hid, hcells, hstatus⟩ := finishTurn_moves_shape s uc g
    refine ⟨e, hm, hid, ?_, hstatus⟩
    rw [hcells, finishTurn_cells]
  · intro cid2 s3 h3
    obtain ⟨_, uc2, g2, _, _, rfl⟩ := makeTurn_ok_elim h3
    rw [finishTurn_moveId, finishTurn_moveId]

/-- C3, witness: the first accepted move of a game advances the move
index from 0 to 1. -/
theorem C3_truncate_then_append_witness :
    (okOr (makeTurn initialSession 1) initialSession).moveId =
      initialSession.moveId + 1 :=
  (C3_truncate_then_append initialSession
    (okOr (makeTurn initialSession 1) initialSession) 1 rfl).1

/-- C4: on an accepted move from a non-terminal session, the new status
is decided in this order: a win reported by the win detector on the
new board wins; otherwise, if the move is the ninth one (under the
session invariant the move index equals the number of filled cells, so
this is exactly the all-cells-filled case), the status is the draw
state; otherwise the turn passes to the other player. -/
theorem C4_status_case_order (s s2 : Session) (cid : Nat)
    (h : makeTurn s cid = Except.ok s2)
    (hs : s.status = GameStatus.Xturn ∨ s.status = GameStatus.Oturn) :
    ∃ w : Option GameStatus,
      checkWinCondition s2.cells = Except.ok w ∧
      (∀ g : GameStatus, w = some g → s2.status = g) ∧
      (w = none → s.moveId + 1 = 9 → s2.status = GameStatus.Stalemate) ∧
      (w = none → s.moveId + 1 ≠ 9 →
        ((s.status = GameStatus.Xturn → s2.status = GameStatus.Oturn) ∧
         (s.status = GameStatus.Oturn → s2.status = GameStatus.Xturn))) := by
  obtain ⟨hw, uc, g, hu, hg, rfl⟩ := makeTurn_ok_elim h
  refine ⟨g, by rw [finishTurn_cells]; exact hg, ?_, ?_, ?_⟩
  · intro g2 hg2
    subst hg2
    exact finishTurn_status_some s uc g2
  · intro hnone h9
    subst hnone
    exact finishTurn_status_none_nine s uc h9
  · intro hnone h9
    subst hnone
    rw [finishTurn_status_none_other s uc h9]
    constructor
    · intro hx
      rw [if_pos hx]
    · intro ho
      rw [ho]
      simp

/-- C4, witness: after the first move of a game the win detector
reports nothing and the turn passes to the O player. -/
theorem C4_status_case_order_witness :
    ∃ w : Option GameStatus,
      checkWinCondition (okOr (makeTurn initialSession 1) initialSession).cells =
        Except.ok w ∧
      (∀ g : GameStatus, w = some g →
        (okOr (makeTurn initialSession 1) initialSession).status = g) ∧
      (w = none → initialSession.moveId + 1 = 9 →
        (okOr (makeTurn initialSession 1) initialSession).status =
          GameStatus.Stalemate) ∧
      (w = none → initialSession.moveId + 1 ≠ 9 →
        ((initialSession.status = GameStatus.Xturn →
          (okOr (makeTurn initialSession 1) initialSession).status =
            GameStatus.Oturn) ∧
         (initialSession.status = GameStatus.Oturn →
          (okOr (makeTurn initialSession 1) initialSession).status =
            GameStatus.Xturn))) :=
  C4_status_case_order initialSession
    (okOr (makeTurn initialSession 1) initialSession) 1 rfl (Or.inl rfl)

/-- C5: on a well-formed board the win detector returns exactly the
result of scanning the 8 lines in their fixed source order (rows, then
columns, then diagonals) and keeping the first line whose three values
are equal and belong to a player, and none when no line matches; and
whenever one player holds all three identifiers of some winning line
while the other player completes no line, the detector reports the win
of that player. -/
theorem C5_first_matching_line (cells : List Cell) (p : Player)
    (line : Nat × Nat × Nat) (hwf : WfBoard cells) :
    checkWinCondition cells = Except.ok (winConditions.findSome? (lineWin cells)) ∧
    (line ∈ winConditions →
      cellValue? cells line.1 = some (some p) →
      cellValue? cells line.2.1 = some (some p) →
      cellValue? cells line.2.2 = some (some p) →
      (∀ l ∈ winConditions, lineWin cells l ≠ some (winStatus (otherPlayer p))) →
      checkWinCondition cells = Except.ok (some (winStatus p))) := by
  constructor
  · exact checkWinAux_eq_findSome (wf_lines hwf)
  · intro hline h1 h2 h3 hother
    rw [checkWinCondition, checkWinAux_eq_findSome (wf_lines hwf)]
    congr 1
    apply findSome?_of_all
    · intro l hl
      rcases hres : lineWin cells l with _ | g
      · exact Or.inl rfl
      · rcases lineWin_some hres with hg | hg <;> subst hg <;> cases p
        · exact Or.inr rfl
        · exact absurd hres (hother l hl)
        · exact absurd hres (hother l hl)
        · exact Or.inr rfl
    · refine ⟨line, hline, ?_⟩
      obtain ⟨a, b, c⟩ := line
      dsimp only at h1 h2 h3
      simp only [lineWin, h1, h2, h3, and_self, if_pos]
      cases p <;> rfl

/-- C5, witness: on the board where X holds the whole first row, the
detector equals the first-match scan and reports the X win. -/
theorem C5_first_matching_line_witness :
    checkWinCondition rowBoardX =
      Except.ok (winConditions.findSome? (lineWin rowBoardX)) ∧
    checkWinCondition rowBoardX = Except.ok (some (winStatus Player.X)) :=
  ⟨(C5_first_matching_line rowBoardX Player.X (1, 2, 3)
      (by decide : rowBoardX.map Cell.id = idList)).1,
   (C5_first_matching_line rowBoardX Player.X (1, 2, 3)
      (by decide : rowBoardX.map Cell.id = idList)).2
      (by decide) (by decide) (by decide) (by decide) (by decide)⟩

/-- C6: in a non-terminal session, a move on an occupied cell of the
board is rejected with error kind CELL_ALREADY_HAS_VALUE (the session
is unchanged: a rejection returns an error and commits nothing); in
particular, after an accepted move on a cell, a second click on the
same cell, as long as the game is not over, is rejected that way. -/
theorem C6_occupied_cell_rejection (s : Session) (c : Cell)
    (hs : s.status = GameStatus.Xturn ∨ s.status = GameStatus.Oturn)
    (hc : c ∈ s.cells) :
    (c.value.isSome →
      makeTurn s c.id =
        Except.error (TurnFailure.gameErr ErrKind.CELL_ALREADY_HAS_VALUE)) ∧
    (∀ s2 : Session, makeTurn s c.id = Except.ok s2 →
      s2.status = GameStatus.Xturn ∨ s2.status = GameStatus.Oturn →
      makeTurn s2 c.id =
        Except.error (TurnFailure.gameErr ErrKind.CELL_ALREADY_HAS_VALUE)) := by
  have hnw : ¬(s.status = GameStatus.Xwon ∨ s.status = GameStatus.Owon) := by
    rcases hs with h | h <;> rw [h] <;> decide
  constructor
  · intro hv
    exact makeTurn_rejects_occupied hnw hc hv
  · intro s2 h2 hs2
    have hnw2 : ¬(s2.status = GameStatus.Xwon ∨ s2.status = GameStatus.Owon) := by
      rcases hs2 with h | h <;> rw [h] <;> decide
    obtain ⟨hw, uc, g, hu, hg, rfl⟩ := makeTurn_ok_elim h2
    obtain ⟨huc, hempty⟩ := updateCells_ok hu
    have hmem2 : markCell c.id
        (if s.status = GameStatus.Xturn then Player.X else Player.O) c ∈
        (finishTurn s uc g).cells := by
      rw [finishTurn_cells, huc]
      exact List.mem_map_of_mem _ hc
    have hid2 : (markCell c.id
        (if s.status = GameStatus.Xturn then Player.X else Player.O) c).id = c.id := by
      simp [markCell]
    have hv2 : (markCell c.id
        (if s.status = GameStatus.Xturn then Player.X else Player.O) c).value.isSome := by
      simp [markCell]
    have hres := makeTurn_rejects_occupied hnw2 hmem2 hv2
    rwa [hid2] at hres

/-- C6, witness: in a session where cell 1 already holds the X mark and
it is the X turn, a click on cell 1 is rejected with the occupied-cell
kind. -/
theorem C6_occupied_cell_rejection_witness :
    makeTurn occupiedSession 1 =
      Except.error (TurnFailure.gameErr ErrKind.CELL_ALREADY_HAS_VALUE) :=
  (C6_occupied_cell_rejection occupiedSession ⟨1, some Player.X⟩
    (Or.inl rfl) (by decide)).1 rfl

/-- C7: selecting a history entry restores the stored board, status and
move index of that entry, deletes nothing from the log, and is
idempotent; selecting the entry with sequence number 0 of a reachable
session always restores the all-empty board and the X-to-move
status. -/
theorem C7_select_entry (s : Session) (e : MoveHistoryEntry)
    (hr : Reachable s) (he : e ∈ s.moves) :
    (goToMove s e).cells = e.cells ∧
    (goToMove s e).status = e.status ∧
    (goToMove s e).moveId = e.id ∧
    (goToMove s e).moves = s.moves ∧
    goToMove (goToMove s e) e = goToMove s e ∧
    (e.id = 0 → (goToMove s e).cells = createCells ∧
      (goToMove s e).status = GameStatus.Xturn) := by
  have hinv := reachable_inv hr
  refine ⟨rfl, rfl, rfl, rfl, rfl, ?_⟩
  intro h0
  have hidx := inv_mem_idx hinv he
  rw [h0, hinv.head] at hidx
  cases hidx
  exact ⟨rfl, rfl⟩

/-- C7, witness: selecting the initial entry of the initial session
restores the empty board and the X-to-move status. -/
theorem C7_select_entry_witness :
    (goToMove initialSession (createMove 0 createCells GameStatus.Xturn none)).cells =
      createCells ∧
    (goToMove initialSession
      (createMove 0 createCells GameStatus.Xturn none)).status = GameStatus.Xturn :=
  (C7_select_entry initialSession (createMove 0 createCells GameStatus.Xturn none)
    Reachable.init (by decide)).2.2.2.2.2 rfl

/-- C8: in every reachable session the number of non-empty cells equals
the current move index, the board has 9 cells, and the number of empty
cells is 9 minus the move index; consequently after any sequence of N
accepted clicks on board identifiers from the initial session, the
board holds exactly N marks and 9 minus N empty cells. -/
theorem C8_filled_count :
    (∀ s : Session, Reachable s →
      filledCount s.cells = s.moveId ∧ s.cells.length = 9 ∧
        emptyCount s.cells = 9 - s.moveId) ∧
    (∀ (ids : List Nat) (s : Session), (∀ i ∈ ids, 1 ≤ i ∧ i ≤ 9) →
      playMoves ids = Except.ok s →
      filledCount s.cells = ids.length ∧ emptyCount s.cells = 9 - ids.length) := by
  have hmain : ∀ s : Session, Reachable s →
      filledCount s.cells = s.moveId ∧ s.cells.length = 9 ∧
        emptyCount s.cells = 9 - s.moveId := by
    intro s hr
    have hinv := reachable_inv hr
    have hlen := wfBoard_length hinv.wf
    have hsum := filledCount_add_emptyCount s.cells
    have hfill := hinv.filled
    exact ⟨hfill, hlen, by omega⟩
  refine ⟨hmain, ?_⟩
  intro ids s hids hok
  obtain ⟨hr, hmi⟩ := playMovesFrom_ok Reachable.init hids hok
  obtain ⟨hfil, hlen, hemp⟩ := hmain s hr
  have h0 : initialSession.moveId = 0 := rfl
  rw [h0] at hmi
  constructor
  · rw [hfil, hmi]
    omega
  · rw [hemp, hmi]
    omega

/-- C8, witness: the initial session, and the session after the single
click on cell 1. -/
theorem C8_filled_count_witness :
    (filledCount initialSession.cells = initialSession.moveId ∧
      initialSession.cells.length = 9 ∧
      emptyCount initialSession.cells = 9 - initialSession.moveId) ∧
    (filledCount (okOr (playMoves [1]) initialSession).cells = [1].length ∧
      emptyCount (okOr (playMoves [1]) initialSession).cells = 9 - [1].length) :=
  ⟨C8_filled_count.1 initialSession Reachable.init,
   C8_filled_count.2 [1] (okOr (playMoves [1]) initialSession) (by decide) rfl⟩

/-- C9: on a board in which each identifier 1..9 occurs in exactly one
cell, every per-identifier lookup of the win detector finds a cell (so
the non-null assertion of the source can not fail), and the detector
returns a result for every such board; being a pure function of the
board, it mutates nothing. -/
theorem C9_win_detector_total (cells : List Cell)
    (h : ∀ i ∈ idList, cells.countP (fun c => c.id == i) = 1) :
    (∀ i ∈ idList, (cellValue? cells i).isSome) ∧
    ∃ r, checkWinCondition cells = Except.ok r := by
  have hlook : ∀ i ∈ idList, (cellValue? cells i).isSome := by
    intro i hi
    have hpos : 0 < cells.countP (fun c => c.id == i) := by
      rw [h i hi]
      omega
    obtain ⟨c, hc, hcp⟩ := List.countP_pos_iff.mp hpos
    exact cellValue?_isSome_of_mem hc (by simpa using hcp)
  refine ⟨hlook, ?_⟩
  have hlines : ∀ l ∈ winConditions, (cellValue? cells l.1).isSome ∧
      (cellValue? cells l.2.1).isSome ∧ (cellValue? cells l.2.2).isSome := by
    intro l hl
    fin_cases hl <;>
      exact ⟨hlook _ (by decide), hlook _ (by decide), hlook _ (by decide)⟩
  exact ⟨_, checkWinAux_eq_findSome hlines⟩

/-- C9, witness: the empty board created by createCells. -/
theorem C9_win_detector_total_witness :
    (∀ i ∈ idList, (cellValue? createCells i).isSome) ∧
    ∃ r, checkWinCondition createCells = Except.ok r :=
  C9_win_detector_total createCells (by decide)

/-- C10: selecting a history entry never changes the terminal flag (so
after jumping back from a finished game the restored board and status
are live again while the flag stays true), starting a new game clears
it, and an accepted move sets it exactly when the new status is
terminal (a win or the draw state). -/
theorem C10_terminal_flag (s : Session) (e : MoveHistoryEntry) (cid : Nat)
    (s2 : Session) (h : makeTurn s cid = Except.ok s2) :
    (goToMove s e).gameOver = s.gameOver ∧
    (startNewGame s).gameOver = false ∧
    (s2.gameOver = true ↔
      (s2.status = GameStatus.Xwon ∨ s2.status = GameStatus.Owon ∨
        s2.status = GameStatus.Stalemate)) := by
  obtain ⟨hw, uc, g, hu, hg, rfl⟩ := makeTurn_ok_elim h
  refine ⟨rfl, rfl, ?_⟩
  cases g with
  | some w =>
    rcases checkWinCondition_some_shape hg with hX | hO
    · subst hX
      rw [finishTurn_gameOver_some, finishTurn_status_some]
      simp
    · subst hO
      rw [finishTurn_gameOver_some, finishTurn_status_some]
      simp
  | none =>
    by_cases h9 : s.moveId + 1 = 9
    · rw [finishTurn_gameOver_none, finishTurn_status_none_nine s uc h9, if_pos h9]
      simp
    · rw [finishTurn_gameOver_none, finishTurn_status_none_other s uc h9, if_neg h9]
      by_cases hx : s.status = GameStatus.Xturn
      · rw [if_pos hx]
        simp
      · rw [if_neg hx]
        simp

/-- C10, witness: after the first move of a game, selecting the initial
entry keeps the flag, a new game clears it, and the flag of the
resulting session matches the non-terminal status. -/
theorem C10_terminal_flag_witness :
    (goToMove initialSession (createMove 0 createCells GameStatus.Xturn none)).gameOver =
      initialSession.gameOver ∧
    (startNewGame initialSession).gameOver = false ∧
    ((okOr (makeTurn initialSession 1) initialSession).gameOver = true ↔
      ((okOr (makeTurn initialSession 1) initialSession).status = GameStatus.Xwon ∨
       (okOr (makeTurn initialSession 1) initialSession).status = GameStatus.Owon ∨
       (okOr (makeTurn initialSession 1) initialSession).status =
         GameStatus.Stalemate)) :=
  C10_terminal_flag initialSession (createMove 0 createCells GameStatus.Xturn none) 1
    (okOr (makeTurn initialSession 1) initialSession) rfl

end TicTacToe
